import Mathlib

/-!
# Verification of the kubectl multi-context aggregator

Shallow embedding of the repository's result-aggregation / output-formatting
engine (`cmd/output.go`, the table-style `formatVersionOutput` revision) and
of the context-resolution subsystem (`cmd/contexts.go`), together with
theorems settling the specification claims.

Conventions of the embedding:
* Go strings are Lean `String`s; the handful of Go standard-library string
  operations the code uses (`strings.TrimSpace`, `strings.Split(s, "\n")`,
  `strings.ToLower`, `strings.Contains`, `strings.HasPrefix`,
  `strings.TrimPrefix`, `len`, `strings.Repeat`) are re-implemented below on
  character lists so that everything is executable and kernel-reducible.
* A Go `error` value is `Option String` (the message); `result.err != nil`
  is `err = some e`.
* Writing a line with `fmt.Printf`/`fmt.Fprintln` is modelled as appending
  one string to a list: each formatter returns the pair
  `(stdout lines, stderr lines)`.
* The external JSON / YAML decoders (`json.Unmarshal` / `yaml.Unmarshal`
  into `map[string]interface{}`) are parameters
  `decode : String → Except String (List (String × JValue))`: `.ok` is a
  successfully decoded top-level object, `.error` carries the decode error
  text.  The final encoders (`json.MarshalIndent` / `yaml.Marshal`) are out
  of scope; the structured formatters return the structural envelope value.
* Go maps are association lists with replace-or-append assignment, which
  matches Go map-update semantics on every key; key enumeration order of Go
  maps is never observed by the code under verification.
-/

/-! ## Go string primitives, re-implemented on character lists -/

/-- Byte size of one character when UTF-8 encoded (`len` in Go counts bytes). -/
def charSize (c : Char) : Nat :=
  if c.toNat ≤ 127 then 1
  else if c.toNat ≤ 2047 then 2
  else if c.toNat ≤ 65535 then 3
  else 4

/-- Go `len(s)`: the UTF-8 byte length of a string. -/
def golen (s : String) : Nat := (s.data.map charSize).sum

/-- Go `strings.Repeat(" ", n)`. -/
def spaces (n : Nat) : String := String.mk (List.replicate n ' ')

/-- Go `strings.TrimSpace` (whitespace here is space, tab, CR, LF). -/
def gotrim (s : String) : String :=
  String.mk (((s.data.dropWhile Char.isWhitespace).reverse.dropWhile
    Char.isWhitespace).reverse)

/-- Go `strings.ToLower`. -/
def golower (s : String) : String := String.mk (s.data.map Char.toLower)

/-- Substring search on character lists: does `needle` occur contiguously in
the second argument?  (An empty needle occurs everywhere.) -/
def containsSub (needle : List Char) : List Char → Bool
  | [] => needle.isEmpty
  | c :: rest => List.isPrefixOf needle (c :: rest) || containsSub needle rest

/-- Go `strings.Contains(s, sub)`. -/
def goContains (s sub : String) : Bool := containsSub sub.data s.data

/-- Go `strings.HasPrefix(s, pre)`. -/
def goStartsWith (s pre : String) : Bool := List.isPrefixOf pre.data s.data

/-- Go `strings.TrimPrefix(s, pre)` under the assumption the prefix is
present (the code only calls it guarded by `strings.HasPrefix`). -/
def goDropStart (s pre : String) : String := String.mk (s.data.drop pre.data.length)

/-- Splitting a character list at `'\n'`, the semantics of
Go `strings.Split(s, "\n")`: always returns at least one (possibly empty)
piece. -/
def splitOnNl : List Char → List (List Char)
  | [] => [[]]
  | c :: rest =>
    if c = '\n' then [] :: splitOnNl rest
    else
      match splitOnNl rest with
      | [] => [[c]]
      | line :: more => (c :: line) :: more

/-- Go `strings.Split(s, "\n")`. -/
def splitLines (s : String) : List String := (splitOnNl s.data).map String.mk

/-! ## Data model -/

/-- One per-context outcome handed to the aggregator
(`contextResult` in the Go source). -/
structure contextResult where
  context : String
  output : String
  err : Option String
deriving DecidableEq

/-- The `outputFormat` enumeration (`formatDefault` / `formatJSON` /
`formatYAML` in the Go source). -/
inductive outputFormat where
  | default
  | json
  | yaml
deriving DecidableEq

/-! ## FormatSelector: `detectOutputFormat` -/

/-- The scanning loop of `detectOutputFormat`: Go iterates an index over the
argument list; when the current token is `-o`/`--output` and a next token
exists whose lower-casing is `json`/`yaml` it returns; otherwise the loop
advances by one position (so the value token is itself examined next). -/
def detectGo : List String → outputFormat
  | [] => outputFormat.default
  | arg :: rest =>
    if arg = "-o" ∨ arg = "--output" then
      match rest with
      | [] => outputFormat.default
      | next :: _ =>
        let format := golower next
        if format = "json" then outputFormat.json
        else if format = "yaml" then outputFormat.yaml
        else detectGo rest
    else detectGo rest

/-- `detectOutputFormat` from `cmd/output.go`. -/
def detectOutputFormat (args : List String) : outputFormat := detectGo args

/-- Spec-side formulation of flag detection: the value a flag token maps to,
if recognized. -/
def goodValue (s : String) : Option outputFormat :=
  if golower s = "json" then some outputFormat.json
  else if golower s = "yaml" then some outputFormat.yaml
  else none

/-- Spec-side formulation: a token is the output flag. -/
def isFlagToken (s : String) : Bool := s = "-o" || s = "--output"

/-- Spec-side (claim-language) detection: scanning adjacent token pairs left
to right, the first occurrence of the flag followed by a recognized value
determines the format; otherwise Default. -/
def specDetect (args : List String) : outputFormat :=
  match (args.zip args.tail).findSome?
      (fun p => if isFlagToken p.1 then goodValue p.2 else none) with
  | some f => f
  | none => outputFormat.default

/-! ## ContextResolver: `getContexts` / `filterContexts` -/

/-- `ContextEntry` from `cmd/contexts.go`. -/
structure ContextEntry where
  name : String
deriving DecidableEq

/-- `Kubeconfig` from `cmd/contexts.go`. -/
structure Kubeconfig where
  contexts : List ContextEntry
deriving DecidableEq

/-- The failure modes of `getContexts` (each a distinct `fmt.Errorf` in the
source). -/
inductive ContextsError where
  | loadError (msg : String)
  | noContexts
  | filterNoMatch (pattern : String)
deriving DecidableEq

/-- The primary parse strategy of `getContexts`: collect each entry's
non-empty `name`, preserving document order. -/
def primaryNames (config : Kubeconfig) : List String :=
  config.contexts.foldl
    (fun acc entry => if entry.name = "" then acc else acc ++ [entry.name]) []

/-- `filterContexts` from `cmd/contexts.go`: case-insensitive substring
filter; empty pattern returns the input unchanged. -/
def filterContexts (contexts : List String) (pattern : String) : List String :=
  if pattern = "" then contexts
  else
    let patternLower := golower pattern
    contexts.foldl
      (fun filtered ctx =>
        if goContains (golower ctx) patternLower then filtered ++ [ctx]
        else filtered) []

/-- `getContexts` from `cmd/contexts.go`, starting after the (external) file
read and YAML parse: `config` is the document the primary strategy sees and
`fallback` the outcome of the schema-aware `clientcmd.LoadFromFile`
enumeration (its map iteration yields some list of names, or the load
fails). -/
def getContexts (config : Kubeconfig) (fallback : Except String (List String))
    (filterPattern : String) : Except ContextsError (List String) :=
  let contexts := primaryNames config
  match (if contexts.isEmpty then
      match fallback with
      | Except.error e => Except.error (ContextsError.loadError e)
      | Except.ok names => Except.ok (contexts ++ names)
    else Except.ok contexts : Except ContextsError (List String)) with
  | Except.error e => Except.error e
  | Except.ok contexts =>
    if contexts.isEmpty then Except.error ContextsError.noContexts
    else if filterPattern ≠ "" then
      let filtered := filterContexts contexts filterPattern
      if filtered.isEmpty then
        Except.error (ContextsError.filterNoMatch filterPattern)
      else Except.ok filtered
    else Except.ok contexts

/-- Spec-side description of what happens to an already-resolved name list:
zero names fail with `noContexts`; a non-empty filter keeps the matching
names or fails with `filterNoMatch` when none match. -/
def resolveNames (names : List String) (filterPattern : String) :
    Except ContextsError (List String) :=
  if names = [] then Except.error ContextsError.noContexts
  else if filterPattern ≠ "" then
    if filterContexts names filterPattern = [] then
      Except.error (ContextsError.filterNoMatch filterPattern)
    else Except.ok (filterContexts names filterPattern)
  else Except.ok names

/-! ## ResultAggregator: `formatDefaultOutput` -/

/-- The local `outputData` record of `formatDefaultOutput`.  In the success
entries `err = none` and `errMsg = ""`; in the failure entries
`lines = []`. -/
structure outputData where
  context : String
  lines : List String
  err : Option String
  errMsg : String
deriving DecidableEq

/-- One step of the first pass of `formatDefaultOutput`: the accumulator is
the `allOutputs` slice paired with `maxContextWidth`.  A failure is recorded
(with its raw output as `errMsg`) and its context length enters the width; a
success is trimmed, dropped when empty, split into lines (the Go code also
guards against a zero-length split, which cannot happen), and its context
length enters the width. -/
def collectStep (acc : List outputData × Nat) (result : contextResult) :
    List outputData × Nat :=
  match result.err with
  | some e =>
    (acc.1 ++ [⟨result.context, [], some e, result.output⟩],
     max acc.2 (golen result.context))
  | none =>
    let output := gotrim result.output
    if output = "" then acc
    else
      let lines := splitLines output
      if lines = [] then acc
      else
        (acc.1 ++ [⟨result.context, lines, none, ""⟩],
         max acc.2 (golen result.context))

/-- The first pass of `formatDefaultOutput`. -/
def collectOutputs (results : List contextResult) : List outputData × Nat :=
  results.foldl collectStep ([], golen "CONTEXT")

/-- The header search of `formatDefaultOutput`: first entry with no error
and more than one line; its first line is the header. -/
def findHeader : List outputData → Option String
  | [] => none
  | d :: rest =>
    if d.err = none ∧ 1 < d.lines.length then some (d.lines.headD "")
    else findHeader rest

/-- The second pass of `formatDefaultOutput`, one `outputData` at a time:
failures append one or two lines to stderr; successes append their body
lines (first line skipped when a header was found and the entry is
multi-line; per-line trim; blank lines dropped) to stdout. -/
def printStep (headerFound : Bool) (maxContextWidth : Nat)
    (acc : List String × List String) (d : outputData) :
    List String × List String :=
  match d.err with
  | some e =>
    (acc.1,
     acc.2 ++ ["Context " ++ d.context ++ ": Error: " ++ e] ++
       (if d.errMsg ≠ "" then ["Output: " ++ d.errMsg] else []))
  | none =>
    let startIdx := if headerFound ∧ 1 < d.lines.length then 1 else 0
    (acc.1 ++ (d.lines.drop startIdx).filterMap (fun line =>
      let line := gotrim line
      if line = "" then none
      else some (d.context ++ spaces (maxContextWidth - golen d.context) ++
        "  " ++ line)),
     acc.2)

/-- `formatDefaultOutput` from `cmd/output.go`, as the pair
`(stdout lines, stderr lines)`.  The Go function always returns `nil`. -/
def formatDefaultOutput (results : List contextResult) :
    List String × List String :=
  let collected := collectOutputs results
  let allOutputs := collected.1
  let maxContextWidth := collected.2
  let headerOpt := findHeader allOutputs
  let headerLines : List String :=
    match headerOpt with
    | some headerLine =>
      ["CONTEXT" ++ spaces (maxContextWidth - golen "CONTEXT") ++ "  " ++
        headerLine]
    | none => []
  let printed := allOutputs.foldl (printStep headerOpt.isSome maxContextWidth)
    ([], [])
  (headerLines ++ printed.1, printed.2)

/-! ### Spec-side (claim-language) descriptions of the Default strategy -/

/-- The lines of a result's trimmed payload. -/
def specLines (r : contextResult) : List String := splitLines (gotrim r.output)

/-- Claim language: a success that is displayed in the primary tabular
output, i.e. no error and non-empty trimmed payload. -/
def isDisplayedSuccess (r : contextResult) : Bool :=
  r.err.isNone && gotrim r.output != ""

/-- Claim language: the header is the first line of the first displayed
success with more than one line. -/
def specHeader (results : List contextResult) : Option String :=
  ((results.filter isDisplayedSuccess).find?
    (fun r => decide (1 < (specLines r).length))).map
    (fun r => (specLines r).headD "")

/-- Claim language: the body lines one displayed success contributes, given
whether a header was found and the column width. -/
def specBody (headerFound : Bool) (width : Nat) (r : contextResult) :
    List String :=
  let lines := specLines r
  let rest := if headerFound ∧ 1 < lines.length then lines.drop 1 else lines
  rest.filterMap (fun line =>
    let line := gotrim line
    if line = "" then none
    else some (r.context ++ spaces (width - golen r.context) ++ "  " ++ line))

/-- Claim language: the whole primary (stdout) output of the Default
strategy — optional header row, then each displayed success's body lines in
result order, all padded to the code's column width. -/
def specStdout (results : List contextResult) : List String :=
  let width := (collectOutputs results).2
  let headerOpt := specHeader results
  (match headerOpt with
   | some h => ["CONTEXT" ++ spaces (width - golen "CONTEXT") ++ "  " ++ h]
   | none => []) ++
  (results.filter isDisplayedSuccess).flatMap (specBody headerOpt.isSome width)

/-- Claim language: the diagnostic lines one failure contributes. -/
def specFailLines (r : contextResult) : List String :=
  match r.err with
  | some e =>
    ["Context " ++ r.context ++ ": Error: " ++ e] ++
      (if r.output ≠ "" then ["Output: " ++ r.output] else [])
  | none => []

/-- Claim language: the whole diagnostic (stderr) output of the Default
strategy. -/
def specStderr (results : List contextResult) : List String :=
  (results.filter (fun r => r.err.isSome)).flatMap specFailLines

/-- Claim language (C9, as written): the column width limited to the
displayed successes. -/
def claimWidth (results : List contextResult) : Nat :=
  max (golen "CONTEXT")
    (((results.filter isDisplayedSuccess).map
      (fun r => golen r.context)).foldr max 0)

/-- Claim language (C9, amended): the column width over displayed successes
and all failures. -/
def amendedWidth (results : List contextResult) : Nat :=
  max (golen "CONTEXT")
    (((results.filter
        (fun r => r.err.isSome || isDisplayedSuccess r)).map
      (fun r => golen r.context)).foldr max 0)

/-! ## ResultAggregator: structured strategy (`formatJSONOutput` /
`formatYAMLOutput`)

The two Go functions are textually identical except for the decoder, the
encoder, and the format name in the parse diagnostic; they are embedded as
one core applied twice. -/

/-- The dynamic structural value a Go `interface{}` holds after
`json.Unmarshal` / `yaml.Unmarshal`: an object (`map[string]interface{}`),
an array (`[]interface{}`), or a scalar. -/
inductive JValue where
  | obj : List (String × JValue) → JValue
  | arr : List JValue → JValue
  | str : String → JValue
  | num : Int → JValue
  | bool : Bool → JValue
  | null : JValue

/-- An object body (`map[string]interface{}`). -/
abbrev JObj := List (String × JValue)

/-- Go map read `m[k]` (present test): first binding of the key. -/
def lookupJ : JObj → String → Option JValue
  | [], _ => none
  | (k', v) :: rest, k => if k' = k then some v else lookupJ rest k

/-- Go map write `m[k] = v`: replace the existing binding, else append. -/
def mapSetJ : JObj → String → JValue → JObj
  | [], k, v => [(k, v)]
  | (k', v') :: rest, k, v =>
    if k' = k then (k', v) :: rest else (k', v') :: mapSetJ rest k v

/-- The per-element tagging of the `items` branch: only object elements are
kept; `metadata.context` is set when `metadata` is an object, otherwise a
fresh `metadata` object holding only `context` replaces whatever was
there. -/
def tagItem (ctx : String) (item : JValue) : Option JObj :=
  match item with
  | JValue.obj itemMap =>
    match lookupJ itemMap "metadata" with
    | some (JValue.obj metadata) =>
      some (mapSetJ itemMap "metadata"
        (JValue.obj (mapSetJ metadata "context" (JValue.str ctx))))
    | _ =>
      some (mapSetJ itemMap "metadata"
        (JValue.obj [("context", JValue.str ctx)]))
  | _ => none

/-- The whole-document tagging of the no-`items` branch: `metadata.context`
when `metadata` is an object, else a top-level `context` key. -/
def tagRoot (ctx : String) (data : JObj) : JObj :=
  match lookupJ data "metadata" with
  | some (JValue.obj metadata) =>
    mapSetJ data "metadata"
      (JValue.obj (mapSetJ metadata "context" (JValue.str ctx)))
  | _ => mapSetJ data "context" (JValue.str ctx)

/-- One iteration of the structured formatters' result loop.  The
accumulator is `(allItems, stderr lines)`.

* Failure: emit `Context <name>: Error: <err>`; when the captured output is
  non-empty, additionally try to decode it, and on success append it with
  top-level `context` and `error` keys set.
* Success: decode the payload; on decode failure emit
  `Context <name>: Failed to parse <FORMAT>: <error>` and contribute
  nothing.  On success, when an `items` key exists: if its value is an
  array, append the tagged object elements, otherwise contribute nothing;
  when no `items` key exists, append the tagged whole document. -/
def processResult (decode : String → Except String JObj) (formatName : String)
    (acc : List JObj × List String) (result : contextResult) :
    List JObj × List String :=
  match result.err with
  | some e =>
    let diags := acc.2 ++ ["Context " ++ result.context ++ ": Error: " ++ e]
    if result.output ≠ "" then
      match decode result.output with
      | Except.ok errorData =>
        let errorData := mapSetJ errorData "context"
          (JValue.str result.context)
        let errorData := mapSetJ errorData "error" (JValue.str e)
        (acc.1 ++ [errorData], diags)
      | Except.error _ => (acc.1, diags)
    else (acc.1, diags)
  | none =>
    match decode result.output with
    | Except.error e =>
      (acc.1, acc.2 ++ ["Context " ++ result.context ++ ": Failed to parse "
        ++ formatName ++ ": " ++ e])
    | Except.ok data =>
      match lookupJ data "items" with
      | some itemsArray =>
        match itemsArray with
        | JValue.arr items =>
          (acc.1 ++ items.filterMap (tagItem result.context), acc.2)
        | _ => acc
      | none => (acc.1 ++ [tagRoot result.context data], acc.2)

/-- The common body of `formatJSONOutput` / `formatYAMLOutput`: fold the
loop over the results and wrap the accumulated items in the
`{apiVersion, kind, items}` envelope.  Returns the envelope (the structural
value handed to the external encoder) and the stderr lines. -/
def formatStructured (decode : String → Except String JObj)
    (formatName : String) (results : List contextResult) :
    JValue × List String :=
  let folded := results.foldl (processResult decode formatName) ([], [])
  (JValue.obj [("apiVersion", JValue.str "v1"), ("kind", JValue.str "List"),
    ("items", JValue.arr (folded.1.map JValue.obj))], folded.2)

/-- `formatJSONOutput` from `cmd/output.go`, parameterized by the external
JSON decoder. -/
def formatJSONOutput (decode : String → Except String JObj)
    (results : List contextResult) : JValue × List String :=
  formatStructured decode "JSON" results

/-- `formatYAMLOutput` from `cmd/output.go`, parameterized by the external
YAML decoder. -/
def formatYAMLOutput (decode : String → Except String JObj)
    (results : List contextResult) : JValue × List String :=
  formatStructured decode "YAML" results

/-! ### Spec-side (claim-language) descriptions of the structured strategy -/

/-- Claim language: the merged entries one result contributes, phrased per
result rather than as a loop over an accumulator.  Object-ness of elements
is expressed with `filter`/`map` over an object test. -/
def isObjJ (v : JValue) : Bool :=
  match v with
  | JValue.obj _ => true
  | _ => false

/-- The object body of a `JValue` known to be an object. -/
def asObjJ (v : JValue) : JObj :=
  match v with
  | JValue.obj o => o
  | _ => []

/-- Claim language: the per-result contribution to the merged item list. -/
def specContrib (decode : String → Except String JObj) (r : contextResult) :
    List JObj :=
  match r.err with
  | some e =>
    if r.output ≠ "" then
      match decode r.output with
      | Except.ok d =>
        [mapSetJ (mapSetJ d "context" (JValue.str r.context)) "error"
          (JValue.str e)]
      | Except.error _ => []
    else []
  | none =>
    match decode r.output with
    | Except.error _ => []
    | Except.ok data =>
      match lookupJ data "items" with
      | some (JValue.arr items) =>
        (items.filter isObjJ).map (fun i => (tagItem r.context i).getD [])
      | some _ => []
      | none => [tagRoot r.context data]

/-- Claim language: the per-result contribution to the structured
strategy's stderr. -/
def specStructuredDiag (decode : String → Except String JObj)
    (formatName : String) (r : contextResult) : List String :=
  match r.err with
  | some e => ["Context " ++ r.context ++ ": Error: " ++ e]
  | none =>
    match decode r.output with
    | Except.error e =>
      ["Context " ++ r.context ++ ": Failed to parse " ++ formatName ++ ": "
        ++ e]
    | Except.ok _ => []

/-! ## ResultAggregator: version strategy (`formatVersionOutput`,
table-style revision) -/

/-- The local `versionInfo` record of `formatVersionOutput`. -/
structure versionInfo where
  clientVersion : String
  kustomizeVersion : String
  serverVersion : String
deriving DecidableEq

/-- Go map write for the `versionData` map. -/
def mapSetV (m : List (String × versionInfo)) (k : String) (v : versionInfo) :
    List (String × versionInfo) :=
  match m with
  | [] => [(k, v)]
  | (k', v') :: rest =>
    if k' = k then (k', v) :: rest else (k', v') :: mapSetV rest k v

/-- Go map read for the `versionData` map (zero value when absent; the code
never reads an absent key). -/
def mapGetV (m : List (String × versionInfo)) (k : String) : versionInfo :=
  match m with
  | [] => ⟨"", "", ""⟩
  | (k', v') :: rest => if k' = k then v' else mapGetV rest k

/-- The inner line scan of the first pass: thread the
`(clientVersion, kustomizeVersion)` pair through the lines of one result,
taking the trimmed suffix of the first `Client Version:` /
`Kustomize Version:` line while the corresponding slot is still empty. -/
def scanCKLines (p : String × String) (lines : List String) : String × String :=
  lines.foldl (fun p line =>
    let line := gotrim line
    let cv := if p.1 = "" ∧ goStartsWith line "Client Version:" then
        gotrim (goDropStart line "Client Version:")
      else p.1
    let kv := if p.2 = "" ∧ goStartsWith line "Kustomize Version:" then
        gotrim (goDropStart line "Kustomize Version:")
      else p.2
    (cv, kv)) p

/-- The first pass of `formatVersionOutput`: scan successes in result
order, skipping failures and empty payloads, and stop (`break`) once both
versions have been found after finishing a result. -/
def scanCK : List contextResult → String × String → String × String
  | [], p => p
  | r :: rest, p =>
    match r.err with
    | some _ => scanCK rest p
    | none =>
      let output := gotrim r.output
      if output = "" then scanCK rest p
      else
        let p := scanCKLines p (splitLines output)
        if p.1 ≠ "" ∧ p.2 ≠ "" then p else scanCK rest p

/-- The server-version extraction of the second pass: the trimmed suffix of
the first `Server Version:` line (the loop breaks at the first match, even
when the extracted value is empty). -/
def extractServer : List String → String
  | [] => ""
  | line :: rest =>
    let line := gotrim line
    if goStartsWith line "Server Version:" then
      gotrim (goDropStart line "Server Version:")
    else extractServer rest

/-- One iteration of the second pass of `formatVersionOutput`: record the
result's sentinel or extracted server version in the `versionData` map and
emit the failure diagnostics. -/
def versionStep (acc : List (String × versionInfo) × List String)
    (result : contextResult) : List (String × versionInfo) × List String :=
  match result.err with
  | some e =>
    (mapSetV acc.1 result.context ⟨"", "", "ERROR"⟩,
     acc.2 ++ ["Context " ++ result.context ++ ": Error: " ++ e] ++
       (if result.output ≠ "" then ["Output: " ++ result.output] else []))
  | none =>
    let output := gotrim result.output
    if output = "" then (mapSetV acc.1 result.context ⟨"", "", "N/A"⟩, acc.2)
    else
      let serverVersion := extractServer (splitLines output)
      let serverVersion := if serverVersion = "" then "N/A" else serverVersion
      (mapSetV acc.1 result.context ⟨"", "", serverVersion⟩, acc.2)

/-- Go `fmt.Printf("%-30s", s)`: left-justify to a minimum of 30 runes. -/
def padTo30 (s : String) : String := s ++ spaces (30 - s.data.length)

/-- `formatVersionOutput` from the table-style revision of the source
(`src/unnamed/part_002`), as `(stdout lines, stderr lines)`. -/
def formatVersionOutput (results : List contextResult) :
    List String × List String :=
  let ck := scanCK results ("", "")
  let clientVersion := ck.1
  let kustomizeVersion := ck.2
  let second := results.foldl versionStep ([], [])
  let versionData := second.1
  let topLines :=
    (if clientVersion ≠ "" then ["Client Version: " ++ clientVersion]
     else []) ++
    (if kustomizeVersion ≠ "" then ["Kustomize Version: " ++ kustomizeVersion]
     else []) ++
    (if clientVersion ≠ "" ∨ kustomizeVersion ≠ "" then [""] else [])
  let headerLines := [padTo30 "CONTEXT" ++ "  " ++ "SERVER VERSION",
    String.mk (List.replicate 50 '-')]
  let rows := results.map (fun r =>
    padTo30 r.context ++ "  " ++ (mapGetV versionData r.context).serverVersion)
  (topLines ++ headerLines ++ rows, second.2)

/-! ### Spec-side (claim-language) descriptions of the version strategy -/

/-- Claim language: a single result's own recorded server version —
`ERROR` for a failure, `N/A` for an empty payload or an empty extracted
value, else the trimmed suffix of its first `Server Version:` line. -/
def specServerVersion (r : contextResult) : String :=
  match r.err with
  | some _ => "ERROR"
  | none =>
    let output := gotrim r.output
    if output = "" then "N/A"
    else
      let sv := extractServer (splitLines output)
      if sv = "" then "N/A" else sv

/-- Claim language: the last result carrying a given context name. -/
def lastWithContext (k : String) : List contextResult → Option contextResult
  | [] => none
  | r :: rest =>
    match lastWithContext k rest with
    | some r' => some r'
    | none => if r.context = k then some r else none

/-- Claim language: the server version the table shows against a context
name — the one recorded by the last result with that name. -/
def specRecordedVersion (results : List contextResult) (k : String) : String :=
  match lastWithContext k results with
  | some r => specServerVersion r
  | none => ""

/-- Claim language: the version strategy's stderr (same failure diagnostics
as the tabular strategy). -/
def specVersionStderr (results : List contextResult) : List String :=
  (results.filter (fun r => r.err.isSome)).flatMap specFailLines


/-! ### Decomposition helpers used by the proofs -/

/-- The `outputData` entry the first pass of `formatDefaultOutput` appends
for one result (`none` when the result is skipped). -/
def toOutputData (r : contextResult) : Option outputData :=
  match r.err with
  | some e => some ⟨r.context, [], some e, r.output⟩
  | none =>
    let output := gotrim r.output
    if output = "" then none
    else
      let lines := splitLines output
      if lines = [] then none
      else some ⟨r.context, lines, none, ""⟩

/-- The width contribution of one result in the first pass (`0` when the
result is skipped, since `max` ignores it). -/
def widthOf (r : contextResult) : Nat :=
  match r.err with
  | some _ => golen r.context
  | none =>
    let output := gotrim r.output
    if output = "" then 0
    else if splitLines output = [] then 0
    else golen r.context

/-- Per-entry stdout contribution of the print pass. -/
def dataStdout (headerFound : Bool) (width : Nat) (d : outputData) :
    List String :=
  match d.err with
  | some _ => []
  | none =>
    let startIdx := if headerFound ∧ 1 < d.lines.length then 1 else 0
    (d.lines.drop startIdx).filterMap (fun line =>
      let line := gotrim line
      if line = "" then none
      else some (d.context ++ spaces (width - golen d.context) ++ "  " ++
        line))

/-- Per-entry stderr contribution of the print pass. -/
def dataStderr (d : outputData) : List String :=
  match d.err with
  | some e =>
    ["Context " ++ d.context ++ ": Error: " ++ e] ++
      (if d.errMsg ≠ "" then ["Output: " ++ d.errMsg] else [])
  | none => []

/-- The `versionInfo` record the second pass of the version strategy stores
for one result. -/
def vInfoOf (r : contextResult) : versionInfo := ⟨"", "", specServerVersion r⟩

/-! # Theorems -/

/-! ## General fold lemmas -/

theorem foldl_filter_append {α : Type} (p : α → Bool) (l : List α) :
    ∀ init, l.foldl (fun acc x => if p x then acc ++ [x] else acc) init =
      init ++ l.filter p := by
  induction l with
  | nil => simp
  | cons x xs ih =>
    intro init
    cases h : p x <;> simp [List.filter_cons, h, ih, List.append_assoc]

theorem filter_idem {α : Type} (p : α → Bool) (l : List α) :
    (l.filter p).filter p = l.filter p := by
  induction l with
  | nil => rfl
  | cons x xs ih => cases h : p x <;> simp [List.filter_cons, h, ih]

/-! ## FormatSelector lemmas -/

theorem containsSub_nil (l : List Char) : containsSub [] l = true := by
  cases l <;> simp [containsSub, List.isPrefixOf]

theorem detectGo_cons_cons (a b : String) (t : List String) :
    detectGo (a :: b :: t) =
      if a = "-o" ∨ a = "--output" then
        (if golower b = "json" then outputFormat.json
         else if golower b = "yaml" then outputFormat.yaml
         else detectGo (b :: t))
      else detectGo (b :: t) := rfl

theorem specDetect_cons_cons (a b : String) (t : List String) :
    specDetect (a :: b :: t) =
      if isFlagToken a then
        (match goodValue b with
         | some f => f
         | none => specDetect (b :: t))
      else specDetect (b :: t) := by
  simp only [specDetect, List.tail_cons, List.zip_cons_cons,
    List.findSome?_cons]
  cases hf : isFlagToken a
  · simp
  · simp only [if_pos rfl, Bool.true_eq]
    cases goodValue b <;> simp

theorem detectGo_eq_specDetect (args : List String) :
    detectGo args = specDetect args := by
  induction args with
  | nil => rfl
  | cons a rest ih =>
    cases rest with
    | nil =>
      simp only [detectGo, specDetect, List.tail_cons, List.zip_nil_right,
        List.findSome?_nil]
      split <;> rfl
    | cons b t =>
      rw [detectGo_cons_cons, specDetect_cons_cons]
      by_cases h : a = "-o" ∨ a = "--output"
      · have hflag : isFlagToken a = true := by
          rcases h with h | h <;> simp [isFlagToken, h]
        rw [if_pos h, if_pos hflag]
        by_cases hj : golower b = "json"
        · simp [goodValue, hj]
        · by_cases hy : golower b = "yaml"
          · simp [goodValue, hj, hy]
          · simp only [goodValue, if_neg hj, if_neg hy, ih]
      · have hflag : isFlagToken a = false := by
          simp only [isFlagToken, Bool.or_eq_false_iff]
          refine ⟨?_, ?_⟩ <;>
            (apply decide_eq_false; intro hc; exact h (by simp [hc]))
        rw [if_neg h, if_neg (by simp [hflag]), ih]

/-! ## Claim C4 — FormatSelector -/

/-- C4 counterexample: the argument list `["--output", "YAML", "-o", "json"]`
contains `["-o", "json"]`, so the claim requires JSON, and its last
well-formed flag occurrence maps to JSON; but `detectOutputFormat` returns
at the FIRST well-formed occurrence, which is `--output YAML`. -/
theorem c4_counterexample :
    detectOutputFormat ["--output", "YAML", "-o", "json"] =
      outputFormat.yaml ∧
    outputFormat.yaml ≠ outputFormat.json := by
  exact ⟨rfl, by decide⟩

/-- C4 (amended): `detectOutputFormat` scans left to right and the FIRST
occurrence of `-o`/`--output` whose following token lower-cases to
`json`/`yaml` determines the result (`specDetect`); any other value keeps
scanning from the next position, and a missing following token or no
recognized occurrence at all yields Default; in particular an argument list
none of whose tokens is the flag yields Default.  `detectOutputFormat` is a
pure total function with no failure mode. -/
theorem c4_detect_first_wellformed (args : List String) :
    detectOutputFormat args = specDetect args ∧
    ((∀ a ∈ args, isFlagToken a = false) →
      detectOutputFormat args = outputFormat.default) := by
  refine ⟨detectGo_eq_specDetect args, fun hnoflag => ?_⟩
  show detectGo args = outputFormat.default
  rw [detectGo_eq_specDetect args]
  unfold specDetect
  have hnone : (args.zip args.tail).findSome?
      (fun p => if isFlagToken p.1 then goodValue p.2 else none) = none := by
    rw [List.findSome?_eq_none_iff]
    intro p hp
    obtain ⟨a, b⟩ := p
    have h1 : a ∈ args := (List.of_mem_zip hp).1
    simp [hnoflag a h1]
  rw [hnone]

/-- C4 witness for the amended theorem's hypothesis-bearing conjunct. -/
theorem c4_witness :
    detectOutputFormat ["get", "pods"] = outputFormat.default :=
  (c4_detect_first_wellformed ["get", "pods"]).2 (by decide)

/-! ## Claim C7 — filtering semantics -/

/-- C7: `filterContexts` keeps exactly the contexts whose lower-cased name
contains the lower-cased pattern as a substring, preserving order; it is
idempotent; and the empty pattern performs no filtering. -/
theorem c7_filter_semantics (C : List String) (p : String) :
    filterContexts C p =
      C.filter (fun c => goContains (golower c) (golower p)) ∧
    filterContexts (filterContexts C p) p = filterContexts C p ∧
    filterContexts C "" = C := by
  have hchar : ∀ D : List String, filterContexts D p =
      D.filter (fun c => goContains (golower c) (golower p)) := by
    intro D
    by_cases hp : p = ""
    · subst hp
      have h2 : D.filter (fun c => goContains (golower c) (golower "")) = D :=
        List.filter_eq_self.mpr (fun a _ => containsSub_nil _)
      rw [h2]
      simp [filterContexts]
    · simp only [filterContexts, if_neg hp]
      exact foldl_filter_append _ D []
  refine ⟨hchar C, ?_, ?_⟩
  · rw [hchar C, hchar (C.filter _)]
    exact filter_idem _ C
  · simp [filterContexts]

/-! ## Claim C6 — ContextResolver strategy selection and failure modes -/

theorem getContexts_primary_nonempty (config : Kubeconfig)
    (fb : Except String (List String)) (p : String)
    (h : primaryNames config ≠ []) :
    getContexts config fb p = resolveNames (primaryNames config) p := by
  unfold getContexts resolveNames
  have hne : (primaryNames config).isEmpty = false := by
    cases hl : primaryNames config with
    | nil => exact absurd hl h
    | cons a l => rfl
  simp only [hne, Bool.false_eq_true, if_false]
  simp only [if_neg h]
  by_cases hp : p ≠ ""
  · simp only [if_pos hp]
    cases hf : filterContexts (primaryNames config) p with
    | nil => simp [hf]
    | cons a l => simp [hf]
  · simp [if_neg hp]

theorem getContexts_primary_empty (config : Kubeconfig)
    (fb : Except String (List String)) (p : String)
    (h : primaryNames config = []) :
    getContexts config fb p =
      match fb with
      | Except.error e => Except.error (ContextsError.loadError e)
      | Except.ok names => resolveNames names p := by
  unfold getContexts resolveNames
  simp only [h, List.isEmpty_nil, if_true]
  cases fb with
  | error e => rfl
  | ok names =>
    simp only [List.nil_append]
    by_cases hn : names = []
    · simp [hn]
    · have hne : names.isEmpty = false := by
        cases hl : names with
        | nil => exact absurd hl hn
        | cons a l => rfl
      simp only [hne, Bool.false_eq_true, if_false, if_neg hn]
      by_cases hp : p ≠ ""
      · simp only [if_pos hp]
        cases hf : filterContexts names p with
        | nil => simp [hf]
        | cons a l => simp [hf]
      · simp [if_neg hp]

/-- C6: the fallback strategy is consulted exactly when the primary parse
yields zero names — with at least one primary name the result is computed
from the primary names alone (`resolveNames`, independent of the fallback);
with zero primary names it is computed from the fallback outcome; zero
names from both strategies fail with `noContexts`; and a non-empty filter
pattern that eliminates every resolved context fails with
`filterNoMatch` naming the pattern. -/
theorem c6_resolver_selection (config : Kubeconfig)
    (fb : Except String (List String)) (p : String) :
    (primaryNames config ≠ [] →
      getContexts config fb p = resolveNames (primaryNames config) p) ∧
    (primaryNames config = [] →
      getContexts config fb p =
        match fb with
        | Except.error e => Except.error (ContextsError.loadError e)
        | Except.ok names => resolveNames names p) ∧
    (primaryNames config = [] → fb = Except.ok [] →
      getContexts config fb p = Except.error ContextsError.noContexts) ∧
    (∀ names, names ≠ [] → p ≠ "" → filterContexts names p = [] →
      resolveNames names p =
        Except.error (ContextsError.filterNoMatch p)) := by
  refine ⟨getContexts_primary_nonempty config fb p,
    getContexts_primary_empty config fb p, fun h hfb => ?_, ?_⟩
  · subst hfb
    rw [getContexts_primary_empty config _ p h]
    rfl
  · intro names hn hp hf
    unfold resolveNames
    simp [if_neg hn, if_pos hp, hf]

/-- C6 witness: concrete instantiations discharging each hypothesis of the
selection theorem. -/
theorem c6_witness :
    getContexts ⟨[⟨"Dev"⟩]⟩ (Except.error "load failed") "dev" =
      resolveNames ["Dev"] "dev" ∧
    getContexts ⟨[⟨""⟩]⟩ (Except.ok []) "x" =
      Except.error ContextsError.noContexts ∧
    resolveNames ["prod"] "dev" =
      Except.error (ContextsError.filterNoMatch "dev") := by
  refine ⟨?_, ?_, ?_⟩
  · exact (c6_resolver_selection ⟨[⟨"Dev"⟩]⟩ (Except.error "load failed")
      "dev").1 (by decide)
  · exact (c6_resolver_selection ⟨[⟨""⟩]⟩ (Except.ok []) "x").2.2.1
      (by decide) rfl
  · exact (c6_resolver_selection ⟨[⟨""⟩]⟩ (Except.ok []) "dev").2.2.2
      ["prod"] (by decide) (by decide) (by decide)

/-! ## Default/tabular strategy lemmas -/

theorem splitOnNl_ne_nil (l : List Char) : splitOnNl l ≠ [] := by
  cases l with
  | nil => simp [splitOnNl]
  | cons c rest =>
    simp only [splitOnNl]
    split
    · simp
    · split <;> simp

theorem splitLines_ne_nil (s : String) : splitLines s ≠ [] := by
  unfold splitLines
  intro h
  exact splitOnNl_ne_nil s.data (List.map_eq_nil_iff.mp h)

theorem collectStep_eq (acc : List outputData × Nat) (r : contextResult) :
    collectStep acc r =
      (acc.1 ++ (toOutputData r).toList, max acc.2 (widthOf r)) := by
  unfold collectStep toOutputData widthOf
  cases r.err with
  | some e => rfl
  | none =>
    by_cases h0 : gotrim r.output = ""
    · simp [h0]
    · by_cases h1 : splitLines (gotrim r.output) = []
      · simp [h0, h1]
      · simp [h0, h1]

theorem collectOutputs_decomposed (l : List contextResult) :
    ∀ (a : List outputData) (w : Nat),
      l.foldl collectStep (a, w) =
        (a ++ l.filterMap toOutputData,
         l.foldl (fun n r => max n (widthOf r)) w) := by
  induction l with
  | nil => simp
  | cons r rest ih =>
    intro a w
    rw [List.foldl_cons, collectStep_eq, ih]
    cases hd : toOutputData r <;>
      simp [List.filterMap_cons, hd, List.append_assoc]

theorem widthFold_eq_max (l : List contextResult) :
    ∀ w : Nat, l.foldl (fun n r => max n (widthOf r)) w =
      max w ((l.map widthOf).foldr max 0) := by
  induction l with
  | nil => simp
  | cons r rest ih =>
    intro w
    rw [List.foldl_cons, ih]
    simp [Nat.max_assoc]

theorem widthOf_eq (r : contextResult) :
    widthOf r =
      if r.err.isSome || isDisplayedSuccess r then golen r.context else 0 := by
  unfold widthOf isDisplayedSuccess
  cases he : r.err with
  | some e => rfl
  | none =>
    by_cases h0 : gotrim r.output = ""
    · simp [h0]
    · simp [h0, splitLines_ne_nil, bne_iff_ne, Ne, h0]

theorem widthMax_filter (l : List contextResult) :
    (l.map widthOf).foldr max 0 =
      ((l.filter (fun r => r.err.isSome || isDisplayedSuccess r)).map
        (fun r => golen r.context)).foldr max 0 := by
  induction l with
  | nil => rfl
  | cons r rest ih =>
    rw [List.map_cons, List.foldr_cons, widthOf_eq, List.filter_cons]
    cases h : (r.err.isSome || isDisplayedSuccess r) with
    | true => simp [ih]
    | false => simp [ih]

theorem findHeader_spec (l : List contextResult) :
    findHeader (l.filterMap toOutputData) = specHeader l := by
  have main : ∀ m : List contextResult,
      findHeader (m.filterMap toOutputData) =
        ((m.filter isDisplayedSuccess).find?
          (fun r => decide (1 < (specLines r).length))).map
          (fun r => (specLines r).headD "") := by
    intro m
    induction m with
    | nil => rfl
    | cons r rest ih =>
      rw [List.filterMap_cons, List.filter_cons]
      cases he : r.err with
      | some e =>
        have hd : toOutputData r = some ⟨r.context, [], some e, r.output⟩ := by
          unfold toOutputData
          rw [he]
        have hds : isDisplayedSuccess r = false := by
          unfold isDisplayedSuccess
          rw [he]
          rfl
        rw [hd, hds]
        simp only [Bool.false_eq_true, if_false]
        rw [← ih]
        simp [findHeader]
      | none =>
        by_cases h0 : gotrim r.output = ""
        · have hd : toOutputData r = none := by
            unfold toOutputData
            rw [he]
            simp [h0]
          have hds : isDisplayedSuccess r = false := by
            unfold isDisplayedSuccess
            rw [he]
            simp [h0]
          rw [hd, hds]
          simp only [Bool.false_eq_true, if_false]
          exact ih
        · have hd : toOutputData r =
              some ⟨r.context, splitLines (gotrim r.output), none, ""⟩ := by
            unfold toOutputData
            rw [he]
            simp [h0, splitLines_ne_nil]
          have hds : isDisplayedSuccess r = true := by
            unfold isDisplayedSuccess
            rw [he]
            simp [h0]
          rw [hd, hds]
          simp only [if_true]
          rw [List.find?_cons]
          by_cases hlen : 1 < (splitLines (gotrim r.output)).length
          · rw [show (decide (1 < (specLines r).length)) = true from
              decide_eq_true hlen]
            unfold findHeader
            rw [if_pos ⟨rfl, hlen⟩]
            rfl
          · rw [show (decide (1 < (specLines r).length)) = false from
              decide_eq_false hlen]
            unfold findHeader
            rw [if_neg (fun hc => hlen hc.2)]
            exact ih
  exact main l

theorem printFold_decomposed (hf : Bool) (w : Nat) (l : List outputData) :
    ∀ (a b : List String),
      l.foldl (printStep hf w) (a, b) =
        (a ++ l.flatMap (dataStdout hf w), b ++ l.flatMap dataStderr) := by
  induction l with
  | nil => simp
  | cons d rest ih =>
    intro a b
    have hstep : printStep hf w (a, b) d =
        (a ++ dataStdout hf w d, b ++ dataStderr d) := by
      unfold printStep dataStdout dataStderr
      cases d.err with
      | some e => simp
      | none => simp
    rw [List.foldl_cons, hstep, ih]
    simp [List.append_assoc]

theorem flatMap_dataStdout (hf : Bool) (w : Nat) (l : List contextResult) :
    (l.filterMap toOutputData).flatMap (dataStdout hf w) =
      (l.filter isDisplayedSuccess).flatMap (specBody hf w) := by
  induction l with
  | nil => rfl
  | cons r rest ih =>
    rw [List.filterMap_cons, List.filter_cons]
    cases he : r.err with
    | some e =>
      have hd : toOutputData r = some ⟨r.context, [], some e, r.output⟩ := by
        unfold toOutputData
        rw [he]
      have hds : isDisplayedSuccess r = false := by
        unfold isDisplayedSuccess
        rw [he]
        rfl
      rw [hd, hds]
      simp only [Bool.false_eq_true, if_false, List.flatMap_cons]
      have : dataStdout hf w ⟨r.context, [], some e, r.output⟩ = [] := rfl
      rw [this, List.nil_append, ih]
    | none =>
      by_cases h0 : gotrim r.output = ""
      · have hd : toOutputData r = none := by
          unfold toOutputData
          rw [he]
          simp [h0]
        have hds : isDisplayedSuccess r = false := by
          unfold isDisplayedSuccess
          rw [he]
          simp [h0]
        rw [hd, hds]
        simp only [Bool.false_eq_true, if_false]
        exact ih
      · have hd : toOutputData r =
            some ⟨r.context, splitLines (gotrim r.output), none, ""⟩ := by
          unfold toOutputData
          rw [he]
          simp [h0, splitLines_ne_nil]
        have hds : isDisplayedSuccess r = true := by
          unfold isDisplayedSuccess
          rw [he]
          simp [h0]
        rw [hd, hds]
        simp only [if_true, List.flatMap_cons]
        rw [ih]
        congr 1
        unfold dataStdout specBody specLines
        simp only
        by_cases hc : hf = true ∧ 1 < (splitLines (gotrim r.output)).length
        · simp [hc]
        · simp [hc]

theorem flatMap_dataStderr (l : List contextResult) :
    (l.filterMap toOutputData).flatMap dataStderr =
      (l.filter (fun r => r.err.isSome)).flatMap specFailLines := by
  induction l with
  | nil => rfl
  | cons r rest ih =>
    rw [List.filterMap_cons, List.filter_cons]
    cases he : r.err with
    | some e =>
      have hd : toOutputData r = some ⟨r.context, [], some e, r.output⟩ := by
        unfold toOutputData
        rw [he]
      rw [hd]
      simp only [he, Option.isSome_some, if_true, List.flatMap_cons]
      rw [ih]
      congr 1
      unfold dataStderr specFailLines
      rw [he]
    | none =>
      by_cases h0 : gotrim r.output = ""
      · have hd : toOutputData r = none := by
          unfold toOutputData
          rw [he]
          simp [h0]
        rw [hd]
        simp only [he, Option.isSome_none, Bool.false_eq_true, if_false]
        exact ih
      · have hd : toOutputData r =
            some ⟨r.context, splitLines (gotrim r.output), none, ""⟩ := by
          unfold toOutputData
          rw [he]
          simp [h0, splitLines_ne_nil]
        rw [hd]
        simp only [he, Option.isSome_none, Bool.false_eq_true, if_false,
          List.flatMap_cons]
        have hz : dataStderr ⟨r.context, splitLines (gotrim r.output),
            none, ""⟩ = [] := rfl
        rw [hz, List.nil_append]
        exact ih

/-- Full decomposition of the Default/tabular strategy: the code's two-pass
fold equals the claim-language description stream by stream. -/
theorem formatDefaultOutput_eq (results : List contextResult) :
    formatDefaultOutput results = (specStdout results, specStderr results) := by
  have hcol : collectOutputs results =
      (results.filterMap toOutputData,
       results.foldl (fun n r => max n (widthOf r)) (golen "CONTEXT")) := by
    unfold collectOutputs
    exact collectOutputs_decomposed results [] _
  simp only [formatDefaultOutput, specStdout, specStderr]
  rw [hcol, findHeader_spec]
  rw [printFold_decomposed, flatMap_dataStdout, flatMap_dataStderr]
  simp

/-! ## Claim C2 — Default/tabular strategy -/

/-- C2: the primary output of the Default strategy is exactly: the header
line — the first line of the first success with non-empty trimmed payload
and more than one line — emitted once as a `CONTEXT`-prefixed row when it
exists (no header row otherwise); then, in result order, every displayed
success's lines, skipping the first line exactly when a header was found
and that success has more than one line, dropping blank lines, trimming
each line, and prefixing the context name padded to the column width plus
two spaces.  A success whose single line is non-blank keeps that line even
when no header (or a header from another success) is printed. -/
theorem c2_default_tabular (results : List contextResult) :
    (formatDefaultOutput results).1 = specStdout results := by
  rw [formatDefaultOutput_eq]

/-! ## Claim C8 — failure containment in the Default strategy -/

/-- C8: failures never reach the primary tabular output; the diagnostic
stream holds, per failure in result order, exactly the line
`Context <name>: Error: <error>` followed by `Output: <captured text>`
precisely when the captured text is non-empty (`specStderr` /
`specFailLines`); and an all-failure result set produces no primary output
at all while the strategy still completes (it is a total function). -/
theorem c8_failure_containment (results : List contextResult) :
    (formatDefaultOutput results).2 = specStderr results ∧
    ((∀ r ∈ results, r.err.isSome) →
      (formatDefaultOutput results).1 = []) := by
  refine ⟨by rw [formatDefaultOutput_eq], fun hall => ?_⟩
  rw [formatDefaultOutput_eq]
  have hfil : results.filter isDisplayedSuccess = [] := by
    rw [List.filter_eq_nil_iff]
    intro r hr
    have hs := hall r hr
    unfold isDisplayedSuccess
    cases hre : r.err with
    | some e => simp [hre]
    | none => rw [hre] at hs; exact absurd hs (by simp)
  simp only [specStdout, specHeader, hfil, List.find?_nil, Option.map_none,
    List.flatMap_nil, List.append_nil]
  rfl

/-- C8 witness: a concrete all-failure run has empty primary output. -/
theorem c8_witness :
    (formatDefaultOutput [⟨"a", "x", some "e1"⟩, ⟨"b", "", some "e2"⟩]).1
      = [] :=
  (c8_failure_containment [⟨"a", "x", some "e1"⟩, ⟨"b", "", some "e2"⟩]).2
    (by decide)

/-! ## Claim C9 — Default/tabular column width -/

/-- C9 counterexample: with a short displayed success and a failure whose
context name is 15 bytes long, the code's column width is 15 — the failure's
name is counted — while the claim's formula (`claimWidth`, successes to
display only) gives 7, and the single body row is padded with the
code's width. -/
theorem c9_counterexample :
    (collectOutputs [⟨"a", "x", none⟩,
      ⟨"verylongctxname", "", some "boom"⟩]).2 = 15 ∧
    claimWidth [⟨"a", "x", none⟩, ⟨"verylongctxname", "", some "boom"⟩] = 7 ∧
    (formatDefaultOutput [⟨"a", "x", none⟩,
      ⟨"verylongctxname", "", some "boom"⟩]).1 =
      ["a" ++ spaces 14 ++ "  " ++ "x"] := by
  refine ⟨by decide, by decide, ?_⟩
  rfl

/-- C9 (amended): the column width used by `formatDefaultOutput` equals
`max(len("CONTEXT"), longest context name among the displayed successes AND
the failures)` — failures never appear as rows, but their context names do
enter the width computation; successes with empty trimmed payload are
excluded. -/
theorem c9_amended_width (results : List contextResult) :
    (collectOutputs results).2 = amendedWidth results := by
  have hcol : collectOutputs results =
      (results.filterMap toOutputData,
       results.foldl (fun n r => max n (widthOf r)) (golen "CONTEXT")) := by
    unfold collectOutputs
    exact collectOutputs_decomposed results [] _
  rw [hcol]
  show results.foldl (fun n r => max n (widthOf r)) (golen "CONTEXT") = _
  rw [widthFold_eq_max, widthMax_filter]
  rfl

/-! ## Structured strategy lemmas -/

theorem tagItem_obj_some (ctx : String) (o : JObj) :
    tagItem ctx (JValue.obj o) =
      some ((tagItem ctx (JValue.obj o)).getD []) := by
  unfold tagItem
  cases h : lookupJ o "metadata" with
  | none => simp [h]
  | some v => cases v <;> simp [h]

theorem filterMap_tagItem (ctx : String) (items : List JValue) :
    items.filterMap (tagItem ctx) =
      (items.filter isObjJ).map (fun i => (tagItem ctx i).getD []) := by
  induction items with
  | nil => rfl
  | cons i rest ih =>
    rw [List.filterMap_cons, List.filter_cons]
    cases i with
    | obj o =>
      rw [tagItem_obj_some]
      simp [isObjJ, ih]
    | arr l => simp [tagItem, isObjJ, ih]
    | str s => simp [tagItem, isObjJ, ih]
    | num n => simp [tagItem, isObjJ, ih]
    | bool b => simp [tagItem, isObjJ, ih]
    | null => simp [tagItem, isObjJ, ih]

theorem processResult_eq (decode : String → Except String JObj) (fmt : String)
    (acc : List JObj × List String) (r : contextResult) :
    processResult decode fmt acc r =
      (acc.1 ++ specContrib decode r,
       acc.2 ++ specStructuredDiag decode fmt r) := by
  unfold processResult specContrib specStructuredDiag
  cases he : r.err with
  | some e =>
    by_cases ho : r.output ≠ ""
    · simp only [if_pos ho]
      cases hd : decode r.output with
      | ok d => simp
      | error e2 => simp
    · simp only [if_neg ho]
      simp
  | none =>
    cases hd : decode r.output with
    | error e => simp
    | ok data =>
      cases hi : lookupJ data "items" with
      | none => simp [hi]
      | some v => cases v <;> simp [hi, filterMap_tagItem]

theorem processFold_decomposed (decode : String → Except String JObj)
    (fmt : String) (l : List contextResult) :
    ∀ (a : List JObj) (b : List String),
      l.foldl (processResult decode fmt) (a, b) =
        (a ++ l.flatMap (specContrib decode),
         b ++ l.flatMap (specStructuredDiag decode fmt)) := by
  induction l with
  | nil => simp
  | cons r rest ih =>
    intro a b
    rw [List.foldl_cons, processResult_eq, ih]
    simp [List.append_assoc]

/-- Full decomposition of the structured strategy: the loop equals the
flattened per-result contributions, in result order, wrapped in the
envelope. -/
theorem formatStructured_eq (decode : String → Except String JObj)
    (fmt : String) (results : List contextResult) :
    formatStructured decode fmt results =
      (JValue.obj [("apiVersion", JValue.str "v1"),
        ("kind", JValue.str "List"),
        ("items", JValue.arr
          ((results.flatMap (specContrib decode)).map JValue.obj))],
       results.flatMap (specStructuredDiag decode fmt)) := by
  unfold formatStructured
  rw [processFold_decomposed]
  simp

/-! ## Claim C1 — structured strategy merge and envelope -/

/-- C1 counterexample: two successful results — one whose decoded payload
has an `items` list holding a single scalar element, one whose `items` key
holds a non-list.  The claim requires each element of the first `items`
list to become one merged entry and the second document to be tagged as a
whole record, i.e. two merged entries; the code merges zero entries (the
scalar element is dropped, the non-list `items` document contributes
nothing) and emits no diagnostic. -/
theorem c1_counterexample :
    formatJSONOutput
      (fun s =>
        if s = "d1" then Except.ok [("items", JValue.arr [JValue.str "x"])]
        else if s = "d2" then Except.ok [("items", JValue.str "nope")]
        else Except.error "invalid")
      [⟨"c1", "d1", none⟩, ⟨"c2", "d2", none⟩] =
      (JValue.obj [("apiVersion", JValue.str "v1"),
        ("kind", JValue.str "List"), ("items", JValue.arr [])], []) := rfl

/-- C1 (amended): for both structured formatters (JSON and YAML,
symmetric), the output is always the single envelope
`{apiVersion: "v1", kind: "List", items: <merged records>}` where the
merged records are the per-result contributions in result order (item order
preserved within each result): a successful result whose decoded payload
has an `items` key holding a list contributes its OBJECT elements, each
tagged via `metadata.context` (synthesizing `metadata` when it is absent or
not an object); an `items` key holding a non-list contributes nothing; with
no `items` key the whole document is one record tagged directly
(`metadata.context` if a `metadata` object exists, else top-level
`context`).  Encoding of the envelope is the external encoder's concern and
is modelled structurally. -/
theorem c1_amended_structured (decode : String → Except String JObj)
    (results : List contextResult) :
    formatJSONOutput decode results =
      (JValue.obj [("apiVersion", JValue.str "v1"),
        ("kind", JValue.str "List"),
        ("items", JValue.arr
          ((results.flatMap (specContrib decode)).map JValue.obj))],
       results.flatMap (specStructuredDiag decode "JSON")) ∧
    formatYAMLOutput decode results =
      (JValue.obj [("apiVersion", JValue.str "v1"),
        ("kind", JValue.str "List"),
        ("items", JValue.arr
          ((results.flatMap (specContrib decode)).map JValue.obj))],
       results.flatMap (specStructuredDiag decode "YAML")) :=
  ⟨formatStructured_eq decode "JSON" results,
   formatStructured_eq decode "YAML" results⟩

/-! ## Claim C5 — structured strategy per-result error handling -/

/-- C5 counterexample: a failed result whose non-empty captured text
decodes to a document with a `metadata` object.  The claim requires the
tabular strategy's diagnostic lineS — here two, since the captured text is
non-empty — and provenance-rule tagging (`metadata.context`).  The code
emits exactly ONE diagnostic line (never an `Output:` line in the
structured path) and tags the document with TOP-LEVEL `context` and `error`
keys, leaving `metadata` untouched. -/
theorem c5_counterexample :
    formatJSONOutput
      (fun s =>
        if s = "edoc" then Except.ok [("metadata", JValue.obj [])]
        else Except.error "invalid")
      [⟨"c", "edoc", some "boom"⟩] =
      (JValue.obj [("apiVersion", JValue.str "v1"),
        ("kind", JValue.str "List"),
        ("items", JValue.arr [JValue.obj [("metadata", JValue.obj []),
          ("context", JValue.str "c"), ("error", JValue.str "boom")]])],
       ["Context c: Error: boom"]) := rfl

/-- C5 (amended): per result, (i) a failed result always produces exactly
one diagnostic line `Context <name>: Error: <error>` (the structured path
never emits the tabular strategy's `Output:` second line); when its
captured text is non-empty and decodes, the decoded document is included in
the merged output tagged with top-level `context` and `error` keys (not via
the provenance-tagging rule); otherwise the failure contributes nothing
further; (ii) a successful result whose payload fails to decode produces
exactly one diagnostic line `Context <name>: Failed to parse <FORMAT>:
<error>`, contributes zero entries, and the run still completes (the
formatter is total). -/
theorem c5_amended_error_handling (decode : String → Except String JObj)
    (fmt : String) (acc : List JObj × List String) (r : contextResult) :
    (∀ e, r.err = some e →
      processResult decode fmt acc r =
        (acc.1 ++
          (if r.output ≠ "" then
            (match decode r.output with
             | Except.ok d =>
               [mapSetJ (mapSetJ d "context" (JValue.str r.context)) "error"
                 (JValue.str e)]
             | Except.error _ => [])
           else []),
         acc.2 ++ ["Context " ++ r.context ++ ": Error: " ++ e])) ∧
    (∀ e, r.err = none → decode r.output = Except.error e →
      processResult decode fmt acc r =
        (acc.1,
         acc.2 ++ ["Context " ++ r.context ++ ": Failed to parse " ++ fmt ++
           ": " ++ e])) := by
  constructor
  · intro e he
    rw [processResult_eq]
    unfold specContrib specStructuredDiag
    rw [he]
  · intro e he hd
    rw [processResult_eq]
    unfold specContrib specStructuredDiag
    rw [he, hd]
    simp

/-- C5 witness: both conjuncts of the amended theorem at concrete inputs —
a failure with decodable captured text and a success with undecodable
payload. -/
theorem c5_witness :
    processResult (fun _ => Except.ok [("a", JValue.num 1)]) "JSON" ([], [])
      ⟨"c", "x", some "boom"⟩ =
      ([[("a", JValue.num 1), ("context", JValue.str "c"),
        ("error", JValue.str "boom")]], ["Context c: Error: boom"]) ∧
    processResult (fun _ => Except.error "bad") "YAML" ([], [])
      ⟨"c", "x", none⟩ =
      ([], ["Context c: Failed to parse YAML: bad"]) := by
  constructor
  · rw [(c5_amended_error_handling (fun _ => Except.ok [("a", JValue.num 1)])
      "JSON" ([], []) ⟨"c", "x", some "boom"⟩).1 "boom" rfl]
    rfl
  · rw [(c5_amended_error_handling (fun _ => Except.error "bad")
      "YAML" ([], []) ⟨"c", "x", none⟩).2 "bad" rfl rfl]
    rfl

/-! ## Claim C10 — non-object `items` elements are silently dropped -/

/-- C10: in both structured formatters, a successful result whose decoded
payload has an `items` key holding a list contributes exactly the tagged
OBJECT elements of that list, in order, with the diagnostic stream
unchanged; an element that is not an object never yields a tagged record
(`tagItem` is `none` on it), so it is silently dropped. -/
theorem c10_nonobject_items_dropped (decode : String → Except String JObj)
    (fmt : String) (acc : List JObj × List String) (r : contextResult)
    (data : JObj) (items : List JValue)
    (he : r.err = none) (hd : decode r.output = Except.ok data)
    (hi : lookupJ data "items" = some (JValue.arr items)) :
    processResult decode fmt acc r =
      (acc.1 ++ (items.filter isObjJ).map
        (fun i => (tagItem r.context i).getD []), acc.2) ∧
    ∀ i ∈ items, isObjJ i = false → tagItem r.context i = none := by
  constructor
  · rw [processResult_eq]
    unfold specContrib specStructuredDiag
    rw [he, hd]
    simp [hi]
  · intro i _ hobj
    cases i with
    | obj o => exact absurd hobj (by simp [isObjJ])
    | arr l => rfl
    | str s => rfl
    | num n => rfl
    | bool b => rfl
    | null => rfl

/-- C10 witness: a concrete `items` list holding a scalar and an object —
only the object survives, tagged; no diagnostic appears. -/
theorem c10_witness :
    processResult
      (fun _ => Except.ok
        [("items", JValue.arr [JValue.str "s", JValue.obj []])])
      "JSON" ([], []) ⟨"c", "", none⟩ =
      ([[("metadata", JValue.obj [("context", JValue.str "c")])]], []) := by
  rw [(c10_nonobject_items_dropped
    (fun _ => Except.ok [("items", JValue.arr [JValue.str "s",
      JValue.obj []])])
    "JSON" ([], []) ⟨"c", "", none⟩
    [("items", JValue.arr [JValue.str "s", JValue.obj []])]
    [JValue.str "s", JValue.obj []] rfl rfl rfl).1]
  rfl

/-! ## Version strategy lemmas -/

theorem versionStep_eq (acc : List (String × versionInfo) × List String)
    (r : contextResult) :
    versionStep acc r =
      (mapSetV acc.1 r.context (vInfoOf r), acc.2 ++ specFailLines r) := by
  unfold versionStep vInfoOf specServerVersion specFailLines
  cases he : r.err with
  | some e => simp [List.append_assoc]
  | none =>
    by_cases h0 : gotrim r.output = ""
    · simp [h0]
    · simp [h0]

theorem versionFold_decomposed (l : List contextResult) :
    ∀ (m : List (String × versionInfo)) (b : List String),
      l.foldl versionStep (m, b) =
        (l.foldl (fun m r => mapSetV m r.context (vInfoOf r)) m,
         b ++ l.flatMap specFailLines) := by
  induction l with
  | nil => simp
  | cons r rest ih =>
    intro m b
    rw [List.foldl_cons, versionStep_eq, ih]
    simp [List.append_assoc]

theorem mapGetV_mapSetV (m : List (String × versionInfo)) (k : String)
    (v : versionInfo) (q : String) :
    mapGetV (mapSetV m k v) q = if k = q then v else mapGetV m q := by
  induction m with
  | nil =>
    by_cases h : k = q <;> simp [mapSetV, mapGetV, h]
  | cons p rest ih =>
    obtain ⟨k', v'⟩ := p
    by_cases h1 : k' = k
    · subst h1
      simp only [mapSetV, if_pos rfl, mapGetV]
      by_cases h2 : k' = q <;> simp [h2]
    · simp only [mapSetV, if_neg h1, mapGetV]
      by_cases h2 : k' = q
      · subst h2
        have hkq : ¬(k = k') := fun hc => h1 hc.symm
        simp [hkq]
      · rw [if_neg h2, if_neg h2, ih]

theorem lastWithContext_cons (q : String) (r : contextResult)
    (rest : List contextResult) :
    lastWithContext q (r :: rest) =
      (match lastWithContext q rest with
       | some r' => some r'
       | none => if r.context = q then some r else none) := rfl

theorem mapGetV_fold (l : List contextResult) (q : String) :
    ∀ m, mapGetV (l.foldl (fun m r => mapSetV m r.context (vInfoOf r)) m) q =
      (match lastWithContext q l with
       | some r => vInfoOf r
       | none => mapGetV m q) := by
  induction l with
  | nil => intro m; rfl
  | cons r rest ih =>
    intro m
    rw [List.foldl_cons, ih, lastWithContext_cons]
    cases hl : lastWithContext q rest with
    | some r' => rfl
    | none =>
      by_cases hq : r.context = q
      · simp [hq, mapGetV_mapSetV]
      · simp [hq, mapGetV_mapSetV]

theorem lastWithContext_none (q : String) (l : List contextResult)
    (h : ∀ y ∈ l, y.context ≠ q) : lastWithContext q l = none := by
  induction l with
  | nil => rfl
  | cons r rest ih =>
    rw [lastWithContext_cons, ih (fun y hy => h y (List.mem_cons_of_mem r hy))]
    simp [h r (List.mem_cons_self r rest)]

theorem lastWithContext_nodup (l : List contextResult) (r : contextResult)
    (hmem : r ∈ l) (hnd : (l.map (fun x => x.context)).Nodup) :
    lastWithContext r.context l = some r := by
  induction l with
  | nil => exact absurd hmem (List.not_mem_nil r)
  | cons x rest ih =>
    rw [List.map_cons, List.nodup_cons] at hnd
    rcases List.mem_cons.mp hmem with heq | hmem'
    · subst heq
      rw [lastWithContext_cons,
        lastWithContext_none r.context rest (fun y hy hc => hnd.1
          (hc ▸ List.mem_map_of_mem (fun x => x.context) hy))]
      simp
    · rw [lastWithContext_cons, ih hmem' hnd.2]

theorem flatMap_specFailLines (l : List contextResult) :
    l.flatMap specFailLines =
      (l.filter (fun r => r.err.isSome)).flatMap specFailLines := by
  induction l with
  | nil => rfl
  | cons r rest ih =>
    rw [List.flatMap_cons, List.filter_cons]
    cases he : r.err with
    | some e => simp only [he, Option.isSome_some, if_true,
        List.flatMap_cons, ih]
    | none =>
      have hz : specFailLines r = [] := by
        unfold specFailLines
        rw [he]
      simp only [he, Option.isSome_none, Bool.false_eq_true, if_false, hz,
        List.nil_append, ih]

/-! ## Claim C3 — version strategy -/

/-- C3 counterexample: two successful results sharing the context name
`a` — the first with `Server Version: 1`, the second with a
`Server Version:` line whose value is empty.  The claim requires the first
row to show that result's own extracted value `1` (and the second's own
extracted value is the empty string, not a sentinel); the code keys its
per-context map by name, so the second result overwrites the first, its
empty extracted value is replaced by `N/A`, and BOTH rows read `N/A`. -/
theorem c3_counterexample :
    (formatVersionOutput [⟨"a", "Server Version: 1", none⟩,
      ⟨"a", "Server Version:", none⟩]).1 =
      [padTo30 "CONTEXT" ++ "  " ++ "SERVER VERSION",
       String.mk (List.replicate 50 '-'),
       padTo30 "a" ++ "  " ++ "N/A", padTo30 "a" ++ "  " ++ "N/A"] ∧
    gotrim (goDropStart (gotrim "Server Version: 1") "Server Version:")
      = "1" := by
  exact ⟨rfl, rfl⟩

/-- C3 (amended): the version strategy prints the client / kustomize
versions found by the first-pass scan (first non-empty occurrences over
successes in order, stopping across results once both are found), each only
if non-empty, followed by a blank line if either was printed; then the
fixed-width `CONTEXT` / `SERVER VERSION` header and separator rule; then
one row per result in original order showing the server version RECORDED
FOR ITS CONTEXT NAME — `ERROR` / `N/A` / extracted value per result, with
the last result of a given name winning (an empty extracted value is also
recorded as `N/A`).  When the context names are pairwise distinct, each row
therefore shows that result's own value.  Failures additionally produce the
tabular strategy's diagnostic lines on stderr. -/
theorem c3_amended_version (results : List contextResult) :
    ((formatVersionOutput results).1 =
      (if (scanCK results ("", "")).1 ≠ "" then
        ["Client Version: " ++ (scanCK results ("", "")).1] else []) ++
      (if (scanCK results ("", "")).2 ≠ "" then
        ["Kustomize Version: " ++ (scanCK results ("", "")).2] else []) ++
      (if (scanCK results ("", "")).1 ≠ "" ∨ (scanCK results ("", "")).2 ≠ ""
        then [""] else []) ++
      [padTo30 "CONTEXT" ++ "  " ++ "SERVER VERSION",
       String.mk (List.replicate 50 '-')] ++
      results.map (fun r => padTo30 r.context ++ "  " ++
        specRecordedVersion results r.context)) ∧
    (formatVersionOutput results).2 = specVersionStderr results ∧
    ((results.map (fun r => r.context)).Nodup →
      ∀ r ∈ results, specRecordedVersion results r.context =
        specServerVersion r) := by
  have hfold : results.foldl versionStep ([], []) =
      (results.foldl (fun m r => mapSetV m r.context (vInfoOf r)) [],
       results.flatMap specFailLines) :=
    (versionFold_decomposed results [] []).trans (by simp)
  refine ⟨?_, ?_, ?_⟩
  · simp only [formatVersionOutput, hfold]
    simp only [List.append_assoc]
    congr 1
    congr 1
    congr 1
    congr 1
    apply List.map_congr_left
    intro r _
    rw [mapGetV_fold]
    unfold specRecordedVersion
    cases hl : lastWithContext r.context results with
    | some r' => rfl
    | none => rfl
  · simp only [formatVersionOutput, hfold]
    unfold specVersionStderr
    exact flatMap_specFailLines results
  · intro hnd r hmem
    unfold specRecordedVersion
    rw [lastWithContext_nodup results r hmem hnd]

/-- C3 witness: with a single (hence distinct-named) result the recorded
version is the result's own extracted server version. -/
theorem c3_witness :
    specRecordedVersion [⟨"a", "Server Version: 9", none⟩] "a" = "9" := by
  rw [show ("a" : String) =
    (⟨"a", "Server Version: 9", none⟩ : contextResult).context from rfl]
  rw [(c3_amended_version [⟨"a", "Server Version: 9", none⟩]).2.2
    (by decide) ⟨"a", "Server Version: 9", none⟩ (by decide)]
  rfl
